import Mathlib

/-!
Verification of core algorithms of the `speakleash-forum-tools` forum
scraper against its specification.

The development shallowly embeds the Python sources
(`speakleash_forum_tools/src/*.py`) in Lean:

* URL filtering during discovery
  (`ForumEnginesManager._crawler_search_filter`,
  `CrawlerManager._urls_generator`);
* the pagination resolver (`ForumEnginesManager._get_next_page_link`)
  together with its phpBB query-string fallback;
* the per-topic page-fetch loop and text extraction
  (`Scraper._get_item_text`, `Scraper._process_item`,
  `Scraper._scrap_txt_mp`);
* archive merging (`ArchiveManager.merge_archives`) and manifest
  statistics (`ManifestManager.create_manifest`);
* robots.txt driven politeness settings
  (`ConfigManager._check_robots_txt`).

Python strings are modelled as Lean `String` values (sequences of code
points, which matches Python's `len` and slicing semantics), and the
Python string primitives used by the sources (`in`, `find`, `split`,
`replace`, `strip`, `startswith`, `int`) are given executable
definitions below.  Recursions that Python expresses as loops over a
shrinking string are implemented with an explicit fuel argument equal to
the string length, which always suffices because every step consumes at
least one character; this keeps every definition kernel-reducible.
-/

/-- Check whether the first character list is an initial segment of the second
(the Python `str.startswith` test, on code points). -/
def listStartsWith : List Char → List Char → Bool
  | [], _ => true
  | _ :: _, [] => false
  | a :: as, b :: bs => a == b && listStartsWith as bs

/-- Index of the first occurrence of `sub` in a character list, if any
(the search underlying Python `in` and `str.find`). -/
def listFindSub (sub : List Char) : List Char → Option Nat
  | [] => if sub.isEmpty then some 0 else none
  | c :: rest =>
    if listStartsWith sub (c :: rest) then some 0
    else (listFindSub sub rest).map (· + 1)

/-- Python's substring test `sub in s`. -/
def occursIn (sub s : String) : Bool := (listFindSub sub.data s.data).isSome

/-- Python's `s.find(sub)`: index of the first occurrence, `-1` when absent. -/
def pyFind (s sub : String) : Int :=
  match listFindSub sub.data s.data with
  | some n => (n : Int)
  | none => -1

/-- Python's `s.startswith(p)`. -/
def pyStarts (s p : String) : Bool := listStartsWith p.data s.data

/-- Splitting worker for `pySplit`; the fuel starts at the length of the
input and decreases every step, so it never runs out on the initial call. -/
def splitGo (sep : List Char) : Nat → List Char → List Char → List (List Char)
  | _, [], acc => [acc.reverse]
  | 0, l, acc => [acc.reverse ++ l]
  | fuel + 1, c :: rest, acc =>
    if listStartsWith sep (c :: rest) then
      acc.reverse :: splitGo sep fuel (List.drop sep.length (c :: rest)) []
    else
      splitGo sep fuel rest (c :: acc)

/-- Python's `s.split(sep)` for a non-empty separator (the only form the
sources use); an empty separator returns the string unsplit. -/
def pySplit (s sep : String) : List String :=
  if sep.data.isEmpty then [s]
  else (splitGo sep.data s.data.length s.data []).map (fun l => String.mk l)

/-- Replacement worker for `pyReplace`, fueled like `splitGo`. -/
def replaceGo (old new : List Char) : Nat → List Char → List Char
  | _, [] => []
  | 0, l => l
  | fuel + 1, c :: rest =>
    if listStartsWith old (c :: rest) then
      new ++ replaceGo old new fuel (List.drop old.length (c :: rest))
    else
      c :: replaceGo old new fuel rest

/-- Python's `s.replace(old, new)`: every non-overlapping occurrence of `old`
is replaced left to right. -/
def pyReplace (s old new : String) : String :=
  if old.data.isEmpty then s
  else String.mk (replaceGo old.data new.data s.data.length s.data)

/-- Digit-string accumulator for `pyInt`. -/
def natDigitsGo : List Char → Nat → Option Nat
  | [], acc => some acc
  | c :: rest, acc =>
    if 48 ≤ c.toNat ∧ c.toNat ≤ 57 then natDigitsGo rest (acc * 10 + (c.toNat - 48))
    else none

/-- Python's `int(s)` on the plain decimal strings the scraper feeds it:
an optional minus sign followed by digits; anything else raises, which the
embedding renders as `none`. -/
def pyInt (s : String) : Option Int :=
  match s.data with
  | [] => none
  | '-' :: rest => if rest.isEmpty then none else (natDigitsGo rest 0).map (fun n => -(n : Int))
  | l => (natDigitsGo l 0).map (fun n => (n : Int))

/-- Whitespace test used by Python's `str.strip` (restricted to the ASCII
whitespace appearing in scraped text). -/
def pyIsSpace (c : Char) : Bool :=
  c == ' ' || c == '\t' || c == '\n' || c == '\r' || c.toNat == 11 || c.toNat == 12

/-- Python's `s.strip()`. -/
def pyStrip (s : String) : String :=
  String.mk (((s.data.dropWhile pyIsSpace).reverse.dropWhile pyIsSpace).reverse)

/-- Python's `len(s)` (number of code points). -/
def pyLen (s : String) : Nat := s.data.length

/-- Update of a Python `dict` represented as an ordered association list:
an existing key keeps its position and gets the new value, a new key is
appended at the end (insertion order, as in CPython). -/
def dictUpdate {α : Type} : List (String × α) → String → α → List (String × α)
  | [], k, v => [(k, v)]
  | (k0, v0) :: rest, k, v =>
    if k0 = k then (k0, v) :: rest else (k0, v0) :: dictUpdate rest k v

theorem listStartsWith_append (p r : List Char) : listStartsWith p (p ++ r) = true := by
  induction p with
  | nil => rfl
  | cons c cs ih => simp [listStartsWith, ih]

theorem listFindSub_self_append (sub r : List Char) :
    (listFindSub sub (sub ++ r)).isSome = true := by
  cases sub with
  | nil => cases r <;> simp [listFindSub, List.isEmpty, listStartsWith]
  | cons c cs =>
    have h := listStartsWith_append (c :: cs) r
    simp only [List.cons_append] at h
    simp [listFindSub, h]

theorem occursIn_append_right (f r : String) : occursIn f (f ++ r) = true := by
  show (listFindSub f.data (f ++ r).data).isSome = true
  have : (f ++ r).data = f.data ++ r.data := rfl
  rw [this]
  exact listFindSub_self_append f.data r.data

/-- Keys present after a `dictUpdate` are the new key or old keys. -/
theorem dictUpdate_mem {α : Type} (l : List (String × α)) (k : String) (v : α) :
    ∀ p ∈ dictUpdate l k v, p.1 = k ∨ ∃ q ∈ l, p.1 = q.1 := by
  induction l with
  | nil => intro p hp; simp [dictUpdate] at hp; left; simp [hp]
  | cons q0 rest ih =>
    intro p hp
    by_cases hk : q0.1 = k
    · simp only [dictUpdate, hk, if_pos rfl] at hp
      rcases List.mem_cons.mp hp with h | h
      · left; simp [h]
      · right; exact ⟨p, List.mem_cons_of_mem _ h, rfl⟩
    · rw [show (q0 : String × α) = (q0.1, q0.2) from rfl] at hp
      simp only [dictUpdate, if_neg hk] at hp
      rcases List.mem_cons.mp hp with h | h
      · right; exact ⟨q0, List.mem_cons_self _ _, by simp [h]⟩
      · rcases ih p h with h1 | ⟨q, hq, hpq⟩
        · left; exact h1
        · right; exact ⟨q, List.mem_cons_of_mem _ hq, hpq⟩

/-!
URL filtering during discovery.

`ForumEnginesManager._crawler_search_filter`
(`src/forum_engines.py`, lines 508-570) decides for each anchor whether
its `href` is kept, and `CrawlerManager._urls_generator`
(`src/crawler_manager.py`, lines 198-242) applies the same nested
whitelist/blacklist/robots decision to every sitemap page URL; the two
sources duplicate the decision code verbatim, so it is embedded once as
`urlFilterKeep`.  `_urls_generator` additionally guards the whole
decision with `if DATASET_URL in page.url`.
-/

/-- Keep decision shared by `_crawler_search_filter` (on `a_tag['href']`) and
`_urls_generator` (on `page.url`), with the source's branch structure:
a non-empty whitelist must match, then a non-empty blacklist must not match,
then `robotparser.can_fetch` or `force_crawl` must hold; with an empty
whitelist only the blacklist and robots checks run. -/
def urlFilterKeep (whitelist blacklist : List String) (robots : String → Bool)
    (forceCrawl : Bool) (href : String) : Bool :=
  if whitelist ≠ [] then
    if whitelist.any (fun y => occursIn y href) then
      if blacklist ≠ [] ∧ blacklist.any (fun y => occursIn y href) then false
      else robots href || forceCrawl
    else false
  else
    if blacklist ≠ [] ∧ blacklist.any (fun y => occursIn y href) then false
    else if whitelist = [] ∨ blacklist = [] then robots href || forceCrawl
    else false

/-- Predicate written from the specification's words: keep iff
(whitelist empty or some whitelist entry occurs in the href) and
(blacklist empty or no blacklist entry occurs in the href) and
(robots allows the href or crawling is forced). -/
def specKeep (whitelist blacklist : List String) (robots : String → Bool)
    (forceCrawl : Bool) (href : String) : Prop :=
  (whitelist = [] ∨ ∃ a ∈ whitelist, occursIn a href = true) ∧
  (blacklist = [] ∨ ∀ d ∈ blacklist, occursIn d href = false) ∧
  (robots href = true ∨ forceCrawl = true)

/-- Keep decision of `_urls_generator` for one sitemap page URL: the shared
filter runs only when the dataset URL occurs in the page URL
(`src/crawler_manager.py`, lines 210-238). -/
def sitemapPageKept (datasetUrl : String) (whitelist blacklist : List String)
    (robots : String → Bool) (forceCrawl : Bool) (url : String) : Bool :=
  if occursIn datasetUrl url then urlFilterKeep whitelist blacklist robots forceCrawl url
  else false

/-- An anchor as consumed by `_crawler_search_filter`: its `href` attribute
and its stripped text (`a_tag.get_text(strip=True)`). -/
structure Anchor where
  href : String
  text : String

/-- Embedding of the emitting loop of `_crawler_search_filter`
(`src/forum_engines.py`, lines 523-570): each kept anchor is resolved with
`urljoin(forum_url, href)`; when the forum URL does not occur in the result
the source instead glues `forum_url + href[1:]`; the pair is stored in an
insertion-ordered dict keyed by the final URL.  `join` abstracts the
external `urllib.parse.urljoin`. -/
def crawlerSearchFilter (join : String → String → String)
    (whitelist blacklist : List String) (robots : String → Bool) (forceCrawl : Bool)
    (forumUrl : String) (anchors : List Anchor) : List (String × String) :=
  anchors.foldl (fun acc a =>
    if urlFilterKeep whitelist blacklist robots forceCrawl a.href then
      let u0 := join forumUrl a.href
      let u := if occursIn forumUrl u0 then u0
               else forumUrl ++ String.mk (a.href.data.drop 1)
      dictUpdate acc u a.text
    else acc) []

/-- Model of `urllib.parse.urljoin` restricted to the shapes exercised in
this development: an absolute http(s) URL is returned unchanged (RFC 3986
section 5.2.2); every other input is appended to the base. -/
def urljoinAbs (base url : String) : String :=
  if pyStarts url "http://" || pyStarts url "https://" then url else base ++ url

/-- Host (netloc) of an absolute URL, as `urllib.parse.urlparse` reports it:
the text between `://` and the next `/`, `?` or `#`. -/
def urlHost (u : String) : String :=
  let afterScheme := ((pySplit u "://").drop 1).headD ""
  let beforeSlash := (pySplit afterScheme "/").headD ""
  let beforeQuery := (pySplit beforeSlash "?").headD ""
  (pySplit beforeQuery "#").headD ""

theorem urlFilterKeep_iff (wl bl : List String) (robots : String → Bool) (force : Bool)
    (href : String) :
    urlFilterKeep wl bl robots force href = true ↔ specKeep wl bl robots force href := by
  unfold urlFilterKeep specKeep
  split_ifs with h1 h2 h3 h4 h5 <;>
    simp_all [List.any_eq_true, Bool.or_eq_true] <;>
    tauto

/-- C1.  For every anchor collected during HTML discovery the keep decision is
exactly the specification's predicate; for a sitemap page URL the decision is
the specification's predicate conjoined with one further condition the claim
omits: the dataset base URL must occur in the page URL. -/
theorem urlFilter_keep_iff_spec (wl bl : List String) (robots : String → Bool)
    (force : Bool) (href datasetUrl url : String) :
    (urlFilterKeep wl bl robots force href = true ↔ specKeep wl bl robots force href)
    ∧ (sitemapPageKept datasetUrl wl bl robots force url = true ↔
        (specKeep wl bl robots force url ∧ occursIn datasetUrl url = true)) := by
  refine ⟨urlFilterKeep_iff wl bl robots force href, ?_⟩
  unfold sitemapPageKept
  by_cases h : occursIn datasetUrl url = true
  · simp [h, urlFilterKeep_iff]
  · simp [h]

/-- C1 counterexample.  A sitemap page URL on a foreign host satisfies the
claim's keep predicate (whitelist matches, blacklist empty, robots allows)
yet `_urls_generator` drops it, because the dataset URL does not occur in it:
the claimed equivalence is false for sitemap URLs. -/
theorem sitemapKeep_spec_cex :
    specKeep ["topic"] [] (fun _ => true) false "https://other.com/topic/1"
    ∧ sitemapPageKept "https://forum.example.com" ["topic"] [] (fun _ => true) false
        "https://other.com/topic/1" = false := by
  constructor
  · exact ⟨Or.inr ⟨"topic", by decide, by decide⟩, Or.inl rfl, Or.inl rfl⟩
  · decide

/-- Helper for C9: every URL emitted by the filter fold keeps the invariant
that the forum base URL occurs in it. -/
theorem crawlerSearchFilter_inv (join : String → String → String)
    (wl bl : List String) (robots : String → Bool) (force : Bool)
    (forumUrl : String) (anchors : List Anchor) (acc : List (String × String))
    (hacc : ∀ p ∈ acc, occursIn forumUrl p.1 = true) :
    ∀ p ∈ anchors.foldl (fun acc a =>
      if urlFilterKeep wl bl robots force a.href then
        let u0 := join forumUrl a.href
        let u := if occursIn forumUrl u0 then u0
                 else forumUrl ++ String.mk (a.href.data.drop 1)
        dictUpdate acc u a.text
      else acc) acc, occursIn forumUrl p.1 = true := by
  induction anchors generalizing acc with
  | nil => exact hacc
  | cons a rest ih =>
    intro p hp
    simp only [List.foldl_cons] at hp
    by_cases hkeep : urlFilterKeep wl bl robots force a.href = true
    · rw [if_pos hkeep] at hp
      refine ih _ ?_ p hp
      intro q hq
      rcases dictUpdate_mem _ _ _ q hq with hqk | ⟨r, hr, hqr⟩
      · rw [hqk]
        by_cases hocc : occursIn forumUrl (join forumUrl a.href) = true
        · simp [hocc]
        · simp only [hocc, if_false, Bool.false_eq_true, if_neg]
          exact occursIn_append_right forumUrl (String.mk (a.href.data.drop 1))
      · rw [hqr]; exact hacc r hr
    · rw [if_neg hkeep] at hp
      exact ih _ hacc p hp

/-- C9 amended.  The filter never drops a cross-host URL; instead every URL it
emits merely contains the forum base URL as a substring: resolved URLs in
which the base does not occur are rewritten to `forum_url + href[1:]`.
Host equality is never checked. -/
theorem filter_contains_base_amended (join : String → String → String)
    (wl bl : List String) (robots : String → Bool) (force : Bool)
    (forumUrl : String) (anchors : List Anchor) :
    ∀ p ∈ crawlerSearchFilter join wl bl robots force forumUrl anchors,
      occursIn forumUrl p.1 = true := by
  intro p hp
  exact crawlerSearchFilter_inv join wl bl robots force forumUrl anchors []
    (by intro q hq; cases hq) p hp

/-- C9 amended, witness: a concrete kept anchor whose emitted URL contains the
base URL. -/
theorem filter_contains_base_amended_witness :
    occursIn "https://f.pl" "https://f.pl/viewforum.php?f=1" = true := by
  have h := filter_contains_base_amended urljoinAbs [] [] (fun _ => true) false
    "https://f.pl" [⟨"https://f.pl/viewforum.php?f=1", "t"⟩]
    ("https://f.pl/viewforum.php?f=1", "t") (by decide)
  exact h

/-- C9 counterexample.  An absolute anchor on host `evil.com` whose query
string contains the dataset base URL passes the substring check and is kept
verbatim, so a URL whose host differs from the dataset host enters the
collected set. -/
theorem filter_crosshost_cex :
    crawlerSearchFilter urljoinAbs [] [] (fun _ => true) false "https://forum.example.com"
      [⟨"https://evil.com/?ref=https://forum.example.com", "t"⟩]
      = [("https://evil.com/?ref=https://forum.example.com", "t")]
    ∧ urlHost "https://evil.com/?ref=https://forum.example.com" = "evil.com"
    ∧ urlHost "https://forum.example.com" = "forum.example.com"
    ∧ urlHost "https://evil.com/?ref=https://forum.example.com"
        ≠ urlHost "https://forum.example.com" := by
  refine ⟨by decide, by decide, by decide, by decide⟩

/-!
Archive merging.

`ArchiveManager.merge_archives` (`src/archive_manager.py`, lines 119-194)
streams every record of every shard in `temp_scraper_data/`, keeps a list
`urls_visited` of URLs already written, emits a record to the merged
archive only when its `meta['url']` is not in that list, and accumulates
`total_docs` and `total_chars` (the sum of `meta['characters']`) over the
emitted records.
-/

/-- One archive record as written by the scraper: the document text and its
metadata fields `url`, `topic_title` and `characters`. -/
structure ArchRecord where
  text : String
  url : String
  topicTitle : String
  characters : Nat

/-- State of the merging loop: records emitted so far, the `urls_visited`
list, `total_docs`, and `total_chars`. -/
def mergeStep (st : List ArchRecord × List String × Nat × Nat) (r : ArchRecord) :
    List ArchRecord × List String × Nat × Nat :=
  if r.url ∈ st.2.1 then st
  else (st.1 ++ [r], st.2.1 ++ [r.url], st.2.2.1 + 1, st.2.2.2 + r.characters)

/-- Embedding of the streaming part of `merge_archives`: the nested loop over
shard files and their records.  Returns the emitted records, `total_docs`
and `total_chars`. -/
def mergeArchives (shards : List (List ArchRecord)) : List ArchRecord × Nat × Nat :=
  let st := shards.foldl (fun acc shard => shard.foldl mergeStep acc) ([], [], 0, 0)
  (st.1, st.2.2.1, st.2.2.2)

/-- Invariant of the merge loop relative to the records processed so far. -/
def MergeInv (processed : List ArchRecord)
    (st : List ArchRecord × List String × Nat × Nat) : Prop :=
  st.2.1 = st.1.map ArchRecord.url ∧
  st.2.2.1 = st.1.length ∧
  st.2.2.2 = (st.1.map ArchRecord.characters).sum ∧
  (st.1.map ArchRecord.url).Nodup ∧
  (∀ r ∈ st.1, processed.find? (fun x => x.url == r.url) = some r) ∧
  (∀ x ∈ processed, ∃ r ∈ st.1, r.url = x.url)

theorem mergeStep_inv (processed : List ArchRecord)
    (st : List ArchRecord × List String × Nat × Nat) (x : ArchRecord)
    (h : MergeInv processed st) : MergeInv (processed ++ [x]) (mergeStep st x) := by
  obtain ⟨hv, hd, hc, hn, hfind, hcover⟩ := h
  unfold mergeStep
  by_cases hmem : x.url ∈ st.2.1
  · rw [if_pos hmem]
    refine ⟨hv, hd, hc, hn, ?_, ?_⟩
    · intro r hr
      rw [List.find?_append, hfind r hr]
      rfl
    · intro y hy
      rcases List.mem_append.mp hy with hy | hy
      · exact hcover y hy
      · rw [List.mem_singleton.mp hy]
        rw [hv] at hmem
        rcases List.mem_map.mp hmem with ⟨r, hr, hru⟩
        exact ⟨r, hr, hru⟩
  · rw [if_neg hmem]
    have hnone : processed.find? (fun y => y.url == x.url) = none := by
      rw [List.find?_eq_none]
      intro y hy hyx
      rcases hcover y hy with ⟨r, hr, hru⟩
      apply hmem
      rw [hv]
      rw [eq_of_beq hyx] at hru
      exact List.mem_map.mpr ⟨r, hr, hru⟩
    refine ⟨?_, ?_, ?_, ?_, ?_, ?_⟩
    · simp [hv]
    · simp [hd]
    · simp [hc]
    · rw [List.map_append]
      rw [List.nodup_append]
      refine ⟨hn, List.nodup_singleton _, ?_⟩
      intro u hu hux
      rw [List.map_singleton, List.mem_singleton] at hux
      rw [hux, ← hv] at hu
      exact hmem hu
    · intro r hr
      rcases List.mem_append.mp hr with hr | hr
      · rw [List.find?_append, hfind r hr]
        rfl
      · rw [List.mem_singleton.mp hr]
        rw [List.find?_append, hnone]
        simp [List.find?]
    · intro y hy
      rcases List.mem_append.mp hy with hy | hy
      · rcases hcover y hy with ⟨r, hr, hru⟩
        exact ⟨r, List.mem_append_left _ hr, hru⟩
      · rw [List.mem_singleton.mp hy]
        exact ⟨x, List.mem_append_right _ (List.mem_singleton_self _), rfl⟩

theorem mergeFold_inv (l : List ArchRecord) :
    ∀ (processed : List ArchRecord) (st : List ArchRecord × List String × Nat × Nat),
    MergeInv processed st → MergeInv (processed ++ l) (l.foldl mergeStep st) := by
  induction l with
  | nil => intro processed st h; simpa using h
  | cons x xs ih =>
    intro processed st h
    have h2 := ih (processed ++ [x]) (mergeStep st x) (mergeStep_inv processed st x h)
    rw [List.append_assoc] at h2
    simpa using h2

/-- C2.  `merge_archives` emits exactly the first record seen for each
distinct URL (later records with the same URL are dropped), so the merged
archive has pairwise distinct URLs and covers every URL of the input
shards; the returned document count is the number of emitted records and
the returned character total is the sum of `meta['characters']` over
exactly the emitted records. -/
theorem mergeArchives_dedup_spec (shards : List (List ArchRecord)) :
    (mergeArchives shards).2.1 = (mergeArchives shards).1.length ∧
    (mergeArchives shards).2.2 =
      ((mergeArchives shards).1.map ArchRecord.characters).sum ∧
    ((mergeArchives shards).1.map ArchRecord.url).Nodup ∧
    (∀ r ∈ (mergeArchives shards).1,
      shards.flatten.find? (fun x => x.url == r.url) = some r) ∧
    (∀ x ∈ shards.flatten, ∃ r ∈ (mergeArchives shards).1, r.url = x.url) := by
  have hflat : shards.flatten.foldl mergeStep ([], [], 0, 0)
      = shards.foldl (fun acc shard => shard.foldl mergeStep acc) ([], [], 0, 0) :=
    List.foldl_flatten mergeStep ([], [], 0, 0) shards
  have hinv : MergeInv ([] ++ shards.flatten)
      (shards.flatten.foldl mergeStep ([], [], 0, 0)) := by
    apply mergeFold_inv
    refine ⟨rfl, rfl, rfl, List.nodup_nil, ?_, ?_⟩
    · intro r hr; cases hr
    · intro y hy; cases hy
  rw [hflat] at hinv
  simp only [List.nil_append] at hinv
  obtain ⟨hv, hd, hc, hn, hfind, hcover⟩ := hinv
  exact ⟨hd, hc, hn, hfind, hcover⟩

/-!
The pagination resolver.

`ForumEnginesManager._get_next_page_link` (`src/forum_engines.py`,
lines 379-506) first walks the pagination selector list; the first
selector shape is dispatched on the positions of the separators
`" >> "` and `" :: "` reported by `str.find`.  A matched element yields
a candidate href (its own `href` attribute, else the `href` of its first
inner anchor, else an uncaught `TypeError`); a candidate equal to the
current URL, or empty, is skipped.  When no selector produces a result
and the engine is phpBB, a query-string fallback parses `f`, `t` and
`start` from the current URL and from every anchor on the page and picks
the first anchor, in ascending `start` order, whose `start` exceeds the
current one.

`BeautifulSoup` is external to the repository, so a parsed page is
modelled as a `Soup` of opaque query functions plus the list of all
anchor hrefs (with `''` for a missing attribute, as `page.get('href', '')`
yields).
-/

/-- A DOM element as the resolver inspects it: its `href` attribute (if
present), the `href` of its first inner `<a>` (if that lookup would not
raise), and whether it contains an `<i class="fa fa-arrow-right">` child. -/
structure PageElem where
  href : Option String
  innerAHref : Option String
  hasArrowIcon : Bool

/-- A parsed page: `classMatches c` is `soup.find_all(['li','a','div'],
{'class': {c}})`, `attrMatches a v` is `soup.find_all(['li','a','div'],
{a: v})`, `tagAttrMatches t a v` is `soup.find_all(t, {a: v})`,
`tagAttrTexts t a v` lists the `.text` of those matches,
`tagAttrFirstText t a v` is the `.text` of `soup.find(t, {a: v})`, and
`anchors` lists `page.get('href', '')` over `soup.find_all('a')`. -/
structure Soup where
  classMatches : String → List PageElem
  attrMatches : String → String → List PageElem
  tagAttrMatches : String → String → String → List PageElem
  tagAttrTexts : String → String → String → List String
  tagAttrFirstText : String → String → String → Option String
  anchors : List String

/-- Element matched by one pagination selector (`src/forum_engines.py`,
lines 390-423): dispatch on the separator positions, with the phpBB
`pagination-arrow` special case filtering for an arrow icon; a selector
whose split does not produce exactly the expected pieces raises inside the
`try` and contributes nothing. -/
def selectorCandidate (soup : Soup) (engine : String) (pagination : List String)
    (pc : String) : Option PageElem :=
  if pyFind pc " >> " < 0 ∧ pyFind pc " :: " < 0 then
    let found := soup.classMatches pc
    if found.isEmpty = false then
      if engine = "phpbb" ∧ pagination.contains "pagination-arrow" then
        found.find? (fun x => x.hasArrowIcon)
      else found.head?
    else none
  else if pyFind pc " >> " < 0 ∧ 0 < pyFind pc " :: " then
    match pySplit pc " :: " with
    | [ptype, pclass] => (soup.attrMatches ptype pclass).head?
    | _ => none
  else if 0 < pyFind pc " >> " ∧ 0 < pyFind pc " :: " then
    match pySplit pc " >> " with
    | [tag, trest] =>
      match pySplit trest " :: " with
      | [ptype, pclass] => (soup.tagAttrMatches tag ptype pclass).head?
      | _ => none
    | _ => none
  else none

/-- Candidate href of a matched element (`src/forum_engines.py`, lines
430-435): `next_button['href']`, on `KeyError` the inner anchor's href; if
that also fails the `TypeError` escapes the function (no enclosing `try`). -/
def candidateHref (elem : PageElem) : Except Unit String :=
  match elem.href with
  | some np => Except.ok np
  | none =>
    match elem.innerAHref with
    | some np => Except.ok np
    | none => Except.error ()

/-- The selector loop of `_get_next_page_link`: the first selector whose
candidate href is neither the current URL nor empty wins
(`src/forum_engines.py`, lines 390-444). -/
def selectorLoop (urlNow : String) (soup : Soup) (engine : String)
    (pagination : List String) : List String → Except Unit (Option String)
  | [] => Except.ok none
  | pc :: rest =>
    match selectorCandidate soup engine pagination pc with
    | none => selectorLoop urlNow soup engine pagination rest
    | some elem =>
      match candidateHref elem with
      | Except.error e => Except.error e
      | Except.ok np =>
        if np = urlNow then selectorLoop urlNow soup engine pagination rest
        else if np ≠ "" then Except.ok (some np)
        else selectorLoop urlNow soup engine pagination rest

/-- Query-field scan shared by the current URL and the page anchors
(`src/forum_engines.py`, lines 456-462 and 483-489): an `elif` chain over
the `&`-separated fields setting `f`, `t` and `start`, each via `int()`
after stripping the key; an `int()` failure raises, rendered as `none`. -/
def parseFTSGo : List String → Int × Int × Int → Option (Int × Int × Int)
  | [], acc => some acc
  | x :: rest, (f, t, s) =>
    if pyStarts x "f=" then
      match pyInt (pyReplace x "f=" "") with
      | some v => parseFTSGo rest (v, t, s)
      | none => none
    else if pyStarts x "t=" then
      match pyInt (pyReplace x "t=" "") with
      | some v => parseFTSGo rest (f, v, s)
      | none => none
    else if pyStarts x "start=" then
      match pyInt (pyReplace x "start=" "") with
      | some v => parseFTSGo rest (f, t, v)
      | none => none
    else parseFTSGo rest (f, t, s)

/-- Parse a query string into `(f, t, start)`, all defaulting to `0`. -/
def parseFTS (query : String) : Option (Int × Int × Int) :=
  parseFTSGo (pySplit query "&") (0, 0, 0)

/-- Values of the current URL in the fallback (`src/forum_engines.py`,
lines 450-462): `url_now.replace("&amp;","&").split("?")[1].split('&')`;
a missing `?` raises `IndexError`, so the whole fallback aborts. -/
def parseCur (url : String) : Option (Int × Int × Int) :=
  match pySplit (pyReplace url "&amp;" "&") "?" with
  | _ :: q :: _ => parseFTS q
  | _ => none

/-- Values of one anchor href in the fallback (`src/forum_engines.py`,
lines 477-489), applied after the `&amp;` replacement: the piece between
the first two `?` must be non-empty and parse. -/
def linkParse (link : String) : Option (Int × Int × Int) :=
  match pySplit link "?" with
  | _ :: q :: _ => if q ≠ "" then parseFTS q else none
  | _ => none

/-- The `page_no` dict of the fallback (`src/forum_engines.py`, lines
464-493): every non-empty anchor href containing `?` and `start=` is
`&amp;`-normalised; if its parsed `start` is non-zero and its `f` and `t`
equal the current ones, the dict maps the normalised href to that
`start`. -/
def pageNoStep (fC tC : Int) (acc : List (String × Int)) (raw : String) :
    List (String × Int) :=
  if raw ≠ "" ∧ occursIn "?" raw = true ∧ occursIn "start=" raw = true then
    let link := pyReplace raw "&amp;" "&"
    match linkParse link with
    | some (f, t, s) =>
      if s ≠ 0 ∧ f = fC ∧ t = tC then dictUpdate acc link s else acc
    | none => acc
  else acc

/-- The whole anchor loop building `page_no`. -/
def buildPageNo (fC tC : Int) (anchors : List String) : List (String × Int) :=
  anchors.foldl (pageNoStep fC tC) []

/-- Ordering used by `sorted(page_no.items(), key=lambda item: item[1])`. -/
def startLe (a b : String × Int) : Prop := a.2 ≤ b.2

instance : DecidableRel startLe := fun a b => inferInstanceAs (Decidable (a.2 ≤ b.2))

instance : IsTotal (String × Int) startLe := ⟨fun a b => Int.le_total a.2 b.2⟩

instance : IsTrans (String × Int) startLe := ⟨fun _ _ _ h h2 => le_trans h h2⟩

/-- The phpBB query-string fallback (`src/forum_engines.py`, lines
447-503): stream the dict in ascending `start` order and return the first
URL whose `start` strictly exceeds the current one. -/
def phpbbFallback (urlNow : String) (anchors : List String) : Option String :=
  match parseCur urlNow with
  | none => none
  | some (f, t, st) =>
    let pn := buildPageNo f t anchors
    ((pn.insertionSort startLe).find? (fun p => decide (st < p.2))).map (fun p => p.1)

/-- Embedding of `_get_next_page_link`: the selector loop, then (phpBB only)
the query-string fallback; `Except.error` renders an uncaught exception. -/
def getNextPageLink (urlNow : String) (soup : Soup) (pagination : List String)
    (engine : String) : Except Unit (Option String) :=
  match selectorLoop urlNow soup engine pagination pagination with
  | Except.error e => Except.error e
  | Except.ok (some s) => Except.ok (some s)
  | Except.ok none =>
    if engine = "phpbb" then Except.ok (phpbbFallback urlNow soup.anchors)
    else Except.ok none

/-- Default phpBB pagination selector list (`PhpBBCrawler.__init__`,
`src/forum_engines.py`, line 609). -/
def phpbbPagination : List String :=
  ["pagination-arrow", "next", "arrow next", "right-box right", "title :: Dalej",
   "pag-img", "right-box-topic right btn btn-primary", "span >> class :: pagination"]

/-!
The scraper.

`Scraper._get_item_text` (`src/scraper.py`, lines 146-275) fetches a
topic URL, walks the content selectors for the first one with matches,
concatenates the stripped block texts separated by `'\n'`
(`text_separator`), extracts a title from the first matching title
selector, and then runs the per-topic page loop (lines 230-265).  That
loop's condition invokes `ForumEnginesManager._get_next_page_link`
without the required `engine_type` argument, so in Python every
evaluation of the condition raises `TypeError`, the surrounding
`try/except` catches it, and the loop ends with the page-1 text; the
embedding keeps the loop's full shape with the resolver call as an
explicit parameter so that both the call as coded (always failing) and a
corrected call can be studied.

On an OK response whose body exceeds 15,000,000 bytes the function
returns the bare string `''` (line 184) instead of a
`(text, topic_title)` pair; `Scraper._process_item` (lines 277-324)
unpacks the result as a pair, which for a bare string succeeds only when
it has exactly two characters, and renders any raised exception as
`meta = {'url', 'topic_title', 'skip': 'error'}`.
-/

/-- An HTTP response as the scraper observes it: `response.ok`,
`len(response.content)`, and the parsed page. -/
structure Response where
  ok : Bool
  contentLength : Nat
  soup : Soup

/-- Append every block as `strip(block) + '\n'` to the accumulated text
(`text += comment.text.strip() + text_separator`). -/
def appendStripped (text : String) (blocks : List String) : String :=
  blocks.foldl (fun acc b => acc ++ pyStrip b ++ "\n") text

/-- The content-selector loop (`src/scraper.py`, lines 189-194): the first
selector of the form `tag >> attr :: value` with a non-empty match set
wins; a malformed selector raises inside the `try`, aborting the loop with
the last assigned match set (`none` when there was none, in which case the
later use of `comment_blocks` raises `NameError`). -/
def findComments (soup : Soup) : List String → Option (List String) → Option (List String)
  | [], cur => cur
  | cc :: rest, cur =>
    match pySplit cc " >> " with
    | [tag, tclass] =>
      match pySplit tclass " :: " with
      | [attr, value] =>
        let blocks := soup.tagAttrTexts tag attr value
        if blocks.isEmpty = false then some blocks else findComments soup rest (some blocks)
      | _ => cur
    | _ => cur

/-- The title-selector loop (`src/scraper.py`, lines 207-224): the first
selector whose `soup.find` returns an element wins; a malformed selector
aborts the loop with the current value; `none` renders both the initial
`''` and a `find` miss (both falsy in the source). -/
def findTitle (soup : Soup) : List String → Option String → Option String
  | [], cur => cur
  | tc :: rest, cur =>
    match pySplit tc " >> " with
    | [tag, tclass] =>
      match pySplit tclass " :: " with
      | [attr, value] =>
        match soup.tagAttrFirstText tag attr value with
        | some el => some el
        | none => findTitle soup rest none
      | _ => cur
    | _ => cur

/-- Final title (`src/scraper.py`, lines 216-221): strip the found
element's text, else the empty string. -/
def titleOf (r : Option String) : String := (r.map pyStrip).getD ""

/-- The per-topic page loop of `_get_item_text` (`src/scraper.py`, lines
230-265), fueled; `none` means the fuel ran out, i.e. the loop did not
terminate within the given number of iterations.  `resolverCall` is the
loop's invocation of `_get_next_page_link`; as coded it omits the required
`engine_type` argument and therefore always raises (`Except.error`), which
the surrounding `try/except` turns into loop exit.  The source evaluates
the pure resolver twice (condition and body) with the same result. -/
def topicPageLoop (resolverCall : String → Soup → Except Unit (Option String))
    (web : String → Option Response) (contentClasses : List String)
    (datasetUrl : String) : Nat → String → Soup → String → Option String
  | 0, _, _, _ => none
  | fuel + 1, url, soup, text =>
    match resolverCall url soup with
    | Except.error _ => some text
    | Except.ok none => some text
    | Except.ok (some np) =>
      let url2 := urljoinAbs datasetUrl np
      if url2 ≠ "" ∧ occursIn datasetUrl url2 = true then
        match web url2 with
        | none => some text
        | some resp =>
          match findComments resp.soup contentClasses none with
          | none => some text
          | some blocks =>
            topicPageLoop resolverCall web contentClasses datasetUrl fuel url2 resp.soup
              (appendStripped text blocks)
      else some text

/-- Result of `_get_item_text`: the documented `(text, topic_title)` pair,
or — on the oversize branch — a bare string. -/
inductive GetRet
  | bare (s : String)
  | pair (text title : String)

/-- Embedding of `_get_item_text` (`src/scraper.py`, lines 146-275);
`none` renders an uncaught exception (`NameError` when no content selector
was usable).  The page loop runs with the resolver call as coded, which
always raises, so one unit of fuel suffices and the `getD` default is
unreachable. -/
def getItemText (web : String → Option Response) (contentClasses titleClasses : List String)
    (datasetUrl : String) (fuel : Nat) (url : String) : Option GetRet :=
  match web url with
  | none => some (GetRet.pair "" "")
  | some resp =>
    if resp.ok then
      if resp.contentLength > 15000000 then some (GetRet.bare "")
      else
        match findComments resp.soup contentClasses none with
        | none => none
        | some blocks =>
          let text1 := appendStripped "" blocks
          let title := titleOf (findTitle resp.soup titleClasses none)
          let text2 := (topicPageLoop (fun _ _ => Except.error ()) web contentClasses
            datasetUrl (fuel + 1) url resp.soup text1).getD text1
          some (GetRet.pair text2 title)
    else some (GetRet.pair "" "")

/-- Metadata dict of one processed topic; `characters` and `skip` are the
optional keys of the three dict shapes `_process_item` builds. -/
structure RecordMeta where
  url : String
  topicTitle : String
  characters : Option Nat
  skip : Option String

/-- Python's unpacking `txt, topic_title = r` of the value returned by
`_get_item_text`: a pair unpacks to its components; a string unpacks only
when it has exactly two characters (to those characters); anything else
raises. -/
def pyUnpack2 : GetRet → Option (String × String)
  | GetRet.pair a b => some (a, b)
  | GetRet.bare s =>
    match s.data with
    | [c1, c2] => some (String.mk [c1], String.mk [c2])
    | _ => none

/-- Embedding of `_process_item` (`src/scraper.py`, lines 277-324).
`fetched` is the outcome of the `_get_item_text` call (`none` = it raised).
Unvisited URLs yield the stripped text with `characters` metadata when the
raw text is non-empty, the `skip='error'` metadata when it is empty or an
exception occurred; visited URLs yield `skip='visited'`. -/
def processItem (visited : List String) (url : String) (fetched : Option GetRet) :
    String × RecordMeta :=
  if url ∈ visited then ("", ⟨url, "", none, some "visited"⟩)
  else
    match fetched with
    | none => ("", ⟨url, "", none, some "error"⟩)
    | some r =>
      match pyUnpack2 r with
      | none => ("", ⟨url, "", none, some "error"⟩)
      | some (txt, title) =>
        if txt ≠ "" then
          let ts := pyStrip txt
          (ts, ⟨url, title, some (pyLen ts), none⟩)
        else ("", ⟨url, title, none, some "error"⟩)

/-- A row of the visited table: URL, title, `Visited_flag`, `Skip_flag`. -/
structure VisitRow where
  url : String
  title : String
  visited : Nat
  skip : Nat

/-- Per-result bookkeeping of `_scrap_txt_mp` (`src/scraper.py`, lines
395-411): a document `(txt, meta)` is added iff the returned text is
non-empty and longer than `MIN_LEN_TXT` (with an empty `topic_title`
replaced by `"x"` first), and the row written to the visited table is
`(url, title, 1, 0)`; otherwise no document is added and the row is
`(url, title, 1, 1)` unless the skip reason is `'visited'`.  The topics
table (with its titles) is in scope in the source but not consulted. -/
def scrapStep (minLen : Int) (txt : String) (meta : RecordMeta) :
    Option (String × RecordMeta) × Option VisitRow :=
  if txt ≠ "" ∧ (pyLen txt : Int) > minLen then
    let meta2 := if meta.topicTitle = "" then
      { meta with topicTitle := "x" } else meta
    (some (txt, meta2), some ⟨meta2.url, meta2.topicTitle, 1, 0⟩)
  else
    (none, if meta.skip ≠ some "visited" then some ⟨meta.url, meta.topicTitle, 1, 1⟩ else none)

/-!
Manifest statistics and robots-driven politeness settings.
-/

/-- The `stats` block of the manifest JSON object. -/
structure ManifestStats where
  documents : Nat
  sentences : Nat
  words : Nat
  nouns : Nat
  verbs : Nat
  characters : Nat
  punctuations : Nat
  symbols : Nat
  stopwords : Nat
  oovs : Nat

/-- Embedding of the `stats` object built by
`ManifestManager.create_manifest` (`src/manifest_manager.py`, lines
36-67): every field except `documents` is a hard-coded placeholder
(`total_len = 0` and friends); in particular `characters` is written as
`total_len`, i.e. `0`, and the character sum returned by
`merge_archives` is never stored (the module's `ManifestManager.__init__`
does not even accept the keyword arguments `core.py` passes). -/
def createManifestStats (totalDocs : Nat) : ManifestStats :=
  { documents := totalDocs, sentences := 0, words := 0, nouns := 0, verbs := 0,
    characters := 0, punctuations := 0, symbols := 0, stopwords := 0, oovs := 0 }

/-- Round to integer with Python's round-half-even rule. -/
def roundHalfEven (q : ℚ) : ℤ :=
  if q - ⌊q⌋ < 1/2 then ⌊q⌋
  else if 1/2 < q - ⌊q⌋ then ⌊q⌋ + 1
  else if ⌊q⌋ % 2 = 0 then ⌊q⌋ else ⌊q⌋ + 1

/-- Python's `round(x, 2)` in exact arithmetic. -/
def pyRound2 (q : ℚ) : ℚ := (roundHalfEven (q * 100) : ℚ) / 100

/-- The robots.txt facts the politeness code reads:
`rp.request_rate("*")` (a `(requests, seconds)` pair when present) and
`rp.crawl_delay('*')` (a non-negative integer when present; `urllib`
accepts only digit strings for it). -/
structure RobotsInfo where
  requestRate : Option (Nat × Nat)
  crawlDelay : Option Nat

/-- Embedding of the politeness part of `ConfigManager._check_robots_txt`
(`src/config_manager.py`, lines 271-284): a present request-rate sets
`TIME_SLEEP` to `round(seconds / requests, 2)` and `PROCESSES` to `2`;
afterwards a truthy (hence non-zero) crawl-delay overrides `TIME_SLEEP`
and sets `PROCESSES` to `2`.  A request-rate with `requests = 0` raises
`ZeroDivisionError` in the source, so the embedding is used with non-zero
`requests` only.  Returns the effective `(TIME_SLEEP, PROCESSES)`. -/
def checkRobotsSettings (r : RobotsInfo) (timeSleep : ℚ) (processes : Nat) : ℚ × Nat :=
  let st :=
    match r.requestRate with
    | some (req, sec) => (pyRound2 ((sec : ℚ) / (req : ℚ)), 2)
    | none => (timeSleep, processes)
  match r.crawlDelay with
  | some d => if d ≠ 0 then ((d : ℚ), 2) else st
  | none => st

/-- Modelled from the spec (section 4.5, step 4), for the refinement
comparison of claim C6: parse the current URL's `?` query into
`{f, t, start}`; consider every anchor href that includes `start=` and
shares `f` and `t` (parsed the same way from the part after its first `?`,
fields defaulting to `0`); return the anchor whose `start` is the smallest
value strictly greater than the current `start` (the earliest such anchor
on ties), or `none` when no such anchor exists. -/
def phpbbFallbackSpec (urlNow : String) (anchors : List String) : Option String :=
  match pySplit urlNow "?" with
  | _ :: q :: _ =>
    match parseFTS q with
    | some (f, t, st) =>
      let cands := anchors.filterMap (fun a =>
        if occursIn "start=" a = true then
          match pySplit a "?" with
          | _ :: aq :: _ =>
            match parseFTS aq with
            | some (f2, t2, s2) => if f2 = f ∧ t2 = t then some (a, s2) else none
            | none => none
          | _ => none
        else none)
      (cands.foldl (fun best p =>
        if st < p.2 then
          match best with
          | none => some p
          | some b => if p.2 < b.2 then some p else some b
        else best) none).map (fun p => p.1)
    | none => none
  | _ => none

theorem string_ne_empty_of_len_pos (s : String) (h : 0 < pyLen s) : s ≠ "" := by
  intro he
  rw [he] at h
  exact absurd h (by decide)

theorem scrapStep_fst (minLen : Int) (txt : String) (meta : RecordMeta) :
    (scrapStep minLen txt meta).1
      = if txt ≠ "" ∧ (pyLen txt : Int) > minLen then
          some (txt, if meta.topicTitle = "" then { meta with topicTitle := "x" } else meta)
        else none := by
  unfold scrapStep
  by_cases h : txt ≠ "" ∧ (pyLen txt : Int) > minLen
  · rw [if_pos h, if_pos h]
  · rw [if_neg h, if_neg h]

theorem scrapStep_snd (minLen : Int) (txt : String) (meta : RecordMeta) :
    (scrapStep minLen txt meta).2
      = if txt ≠ "" ∧ (pyLen txt : Int) > minLen then
          some ⟨meta.url, if meta.topicTitle = "" then "x" else meta.topicTitle, 1, 0⟩
        else if meta.skip ≠ some "visited" then some ⟨meta.url, meta.topicTitle, 1, 1⟩
        else none := by
  unfold scrapStep
  by_cases h : txt ≠ "" ∧ (pyLen txt : Int) > minLen
  · rw [if_pos h, if_pos h]
    by_cases ht : meta.topicTitle = ""
    · rw [if_pos ht, if_pos ht]
    · rw [if_neg ht, if_neg ht]
  · rw [if_neg h, if_neg h]

/-- C10.  On an OK response whose body exceeds 15,000,000 bytes,
`_get_item_text` returns the bare empty string instead of the documented
`(text, topic_title)` pair; unpacking it in `_process_item` raises, and the
exception handler records the URL with `meta = {'skip': 'error'}` and empty
text — the oversize skip is realised only through the error branch. -/
theorem oversize_error_branch (web : String → Option Response)
    (contentClasses titleClasses : List String) (datasetUrl : String) (fuel : Nat)
    (visited : List String) (url : String) (resp : Response)
    (hweb : web url = some resp) (hok : resp.ok = true)
    (hbig : resp.contentLength > 15000000) (hvis : url ∉ visited) :
    getItemText web contentClasses titleClasses datasetUrl fuel url = some (GetRet.bare "")
    ∧ processItem visited url (getItemText web contentClasses titleClasses datasetUrl fuel url)
        = ("", ⟨url, "", none, some "error"⟩) := by
  have h1 : getItemText web contentClasses titleClasses datasetUrl fuel url
      = some (GetRet.bare "") := by
    unfold getItemText
    rw [hweb]
    show (if resp.ok = true then _ else _) = _
    rw [if_pos hok, if_pos hbig]
  refine ⟨h1, ?_⟩
  rw [h1]
  unfold processItem
  rw [if_neg hvis]
  rfl

/-- C10 witness: a concrete oversize response. -/
theorem oversize_error_branch_witness :
    ((fun (_ : String) => some (⟨true, 15000001,
        ⟨fun _ => [], fun _ _ => [], fun _ _ _ => [], fun _ _ _ => [],
         fun _ _ _ => none, []⟩⟩ : Response)) "https://f.pl/t1"
       = some (⟨true, 15000001,
        ⟨fun _ => [], fun _ _ => [], fun _ _ _ => [], fun _ _ _ => [],
         fun _ _ _ => none, []⟩⟩ : Response))
    ∧ processItem [] "https://f.pl/t1"
        (getItemText (fun _ => some (⟨true, 15000001,
          ⟨fun _ => [], fun _ _ => [], fun _ _ _ => [], fun _ _ _ => [],
           fun _ _ _ => none, []⟩⟩ : Response)) [] [] "https://f.pl" 0 "https://f.pl/t1")
        = ("", ⟨"https://f.pl/t1", "", none, some "error"⟩) := by
  refine ⟨rfl, ?_⟩
  exact (oversize_error_branch _ [] [] "https://f.pl" 0 [] "https://f.pl/t1" _
    rfl rfl (by decide) (List.not_mem_nil _)).2

/-- C7 amended.  For a processed (unvisited) topic whose fetch produced the
pair `(raw, title)`, a document is added iff the stripped text is longer
than `minLen`; when it is not, the URL is recorded with `Visited_flag = 1`
and `Skip_flag = 1`; but the emitted metadata is `{'skip': 'error'}` only
when the raw text is empty — a non-empty raw text whose stripped form is
short yields `{'characters': n}` metadata instead. -/
theorem scrapStep_minlen_amended (minLen : Int) (visited : List String)
    (url raw title : String) (hmin : 0 ≤ minLen) (hvis : url ∉ visited) :
    ((scrapStep minLen (processItem visited url (some (GetRet.pair raw title))).1
        (processItem visited url (some (GetRet.pair raw title))).2).1.isSome = true
      ↔ minLen < (pyLen (pyStrip raw) : Int))
    ∧ ((scrapStep minLen (processItem visited url (some (GetRet.pair raw title))).1
        (processItem visited url (some (GetRet.pair raw title))).2).1 = none →
       (scrapStep minLen (processItem visited url (some (GetRet.pair raw title))).1
        (processItem visited url (some (GetRet.pair raw title))).2).2
          = some ⟨url, title, 1, 1⟩)
    ∧ ((processItem visited url (some (GetRet.pair raw title))).2.skip = some "error"
        ↔ raw = "")
    ∧ (raw ≠ "" →
       (processItem visited url (some (GetRet.pair raw title))).2.characters
         = some (pyLen (pyStrip raw))) := by
  have hpi : processItem visited url (some (GetRet.pair raw title))
      = if raw ≠ "" then (pyStrip raw, ⟨url, title, some (pyLen (pyStrip raw)), none⟩)
        else ("", ⟨url, title, none, some "error"⟩) := by
    unfold processItem pyUnpack2
    rw [if_neg hvis]
  rw [hpi]
  by_cases hraw : raw = ""
  · rw [if_neg (by simp [hraw])]
    refine ⟨?_, ?_, by simp [hraw], fun h => absurd hraw h⟩
    · rw [scrapStep_fst, if_neg (by simp)]
      simp only [Option.isSome_none, Bool.false_eq_true, false_iff, not_lt]
      rw [hraw]
      exact hmin
    · intro _
      rw [scrapStep_snd, if_neg (by simp)]
      rfl
  · rw [if_pos (by simp [hraw])]
    refine ⟨?_, ?_, by simp [hraw], fun _ => rfl⟩
    · rw [scrapStep_fst]
      by_cases hc : pyStrip raw ≠ "" ∧ (pyLen (pyStrip raw) : Int) > minLen
      · rw [if_pos hc]
        simp only [Option.isSome_some, true_iff]
        exact hc.2
      · rw [if_neg hc]
        simp only [Option.isSome_none, Bool.false_eq_true, false_iff, not_lt]
        by_contra hlt
        push_neg at hlt
        apply hc
        refine ⟨?_, hlt⟩
        apply string_ne_empty_of_len_pos
        have h0 : (0 : Int) < (pyLen (pyStrip raw) : Int) := lt_of_le_of_lt hmin hlt
        exact_mod_cast h0
    · intro h
      by_cases hc : pyStrip raw ≠ "" ∧ (pyLen (pyStrip raw) : Int) > minLen
      · rw [scrapStep_fst, if_pos hc] at h
        simp at h
      · rw [scrapStep_snd, if_neg hc]
        rfl

/-- C7 amended, witness: a concrete long-enough text is added. -/
theorem scrapStep_minlen_amended_witness :
    (0 : Int) ≤ 20
    ∧ ((scrapStep 20 (processItem [] "u" (some (GetRet.pair
        "This text is quite clearly longer than twenty characters." "T"))).1
        (processItem [] "u" (some (GetRet.pair
        "This text is quite clearly longer than twenty characters." "T"))).2).1.isSome = true
      ↔ (20 : Int) < (pyLen (pyStrip
        "This text is quite clearly longer than twenty characters.") : Int)) := by
  refine ⟨by decide, ?_⟩
  exact (scrapStep_minlen_amended 20 [] "u"
    "This text is quite clearly longer than twenty characters." "T"
    (by decide) (List.not_mem_nil _)).1

/-- C7 counterexample.  A fetched text of length 2 with `minLen = 20`: no
document is produced and the row `(visited, skip) = (1, 1)` is recorded,
but the emitted metadata carries `characters = 2` and no `skip` key — not
`{'skip': 'error'}` as claimed. -/
theorem scrapStep_short_meta_cex :
    (processItem [] "u" (some (GetRet.pair "ab" "T"))).2
      = ⟨"u", "T", some 2, none⟩
    ∧ (processItem [] "u" (some (GetRet.pair "ab" "T"))).2.skip ≠ some "error"
    ∧ (scrapStep 20 (processItem [] "u" (some (GetRet.pair "ab" "T"))).1
        (processItem [] "u" (some (GetRet.pair "ab" "T"))).2).1 = none
    ∧ (scrapStep 20 (processItem [] "u" (some (GetRet.pair "ab" "T"))).1
        (processItem [] "u" (some (GetRet.pair "ab" "T"))).2).2
        = some ⟨"u", "T", 1, 1⟩ := by
  refine ⟨rfl, by decide, rfl, rfl⟩

/-- C8 amended.  Every added document's `topic_title` is the title extracted
from the post page, with `"x"` substituted when that title is empty; the
topics table is never consulted on document addition. -/
theorem docTitle_amended (minLen : Int) (txt : String) (meta : RecordMeta)
    (doc : String × RecordMeta) (h : (scrapStep minLen txt meta).1 = some doc) :
    doc.2.topicTitle = (if meta.topicTitle = "" then "x" else meta.topicTitle)
    ∧ doc.1 = txt := by
  unfold scrapStep at h
  by_cases hc : txt ≠ "" ∧ (pyLen txt : Int) > minLen
  · rw [if_pos hc] at h
    simp only [Option.some.injEq] at h
    subst h
    by_cases ht : meta.topicTitle = ""
    · simp [ht]
    · simp [ht]
  · rw [if_neg hc] at h
    simp at h

/-- C8 amended, witness. -/
theorem docTitle_amended_witness :
    ((scrapStep 0 "hello" ⟨"u", "", some 5, none⟩).1
      = some ("hello", ⟨"u", "x", some 5, none⟩))
    ∧ ("hello", (⟨"u", "x", some 5, none⟩ : RecordMeta)).2.topicTitle
        = (if ("" : String) = "" then "x" else "")
    ∧ ("hello", (⟨"u", "x", some 5, none⟩ : RecordMeta)).1 = "hello" := by
  refine ⟨rfl, ?_, ?_⟩
  · exact (docTitle_amended 0 "hello" ⟨"u", "", some 5, none⟩
      ("hello", ⟨"u", "x", some 5, none⟩) rfl).1
  · exact (docTitle_amended 0 "hello" ⟨"u", "", some 5, none⟩
      ("hello", ⟨"u", "x", some 5, none⟩) rfl).2

/-- C8 counterexample.  The topics table carries the non-empty title
`"TableTitle"` for the URL, yet the added record keeps the page-extracted
title `"PageTitle"`: title reconciliation does not happen. -/
theorem docTitle_table_cex :
    List.lookup "u" [("u", "TableTitle")] = some "TableTitle"
    ∧ (scrapStep 5 "sufficiently long text" ⟨"u", "PageTitle", some 22, none⟩).1
        = some ("sufficiently long text", ⟨"u", "PageTitle", some 22, none⟩)
    ∧ ("PageTitle" : String) ≠ "TableTitle" := by
  refine ⟨rfl, rfl, by decide⟩

/-- C3.  Every document the scraper adds satisfies
`meta['characters'] = len(text)` for its stored (stripped) text — but the
manifest's `stats.characters` is the hard-coded placeholder `0` regardless
of the inputs, so it does not equal the character sum `merge_archives`
computes (here `7` for a one-record archive): `core.py` passes the sum as
`total_characters`, which `src/manifest_manager.py` neither accepts nor
stores. -/
theorem manifest_characters_code_bug :
    (∀ (minLen : Int) (visited : List String) (url : String) (fetched : Option GetRet),
      ((scrapStep minLen (processItem visited url fetched).1
          (processItem visited url fetched).2).1).elim True
        (fun d => d.2.characters = some (pyLen d.1)
          ∧ d.1 = (processItem visited url fetched).1))
    ∧ (∀ totalDocs : Nat, (createManifestStats totalDocs).characters = 0)
    ∧ (mergeArchives [[⟨"abcdefg", "u", "T", 7⟩]]).2.2 = 7
    ∧ (createManifestStats (mergeArchives [[⟨"abcdefg", "u", "T", 7⟩]]).2.1).characters
        ≠ (mergeArchives [[⟨"abcdefg", "u", "T", 7⟩]]).2.2 := by
  refine ⟨?_, fun _ => rfl, rfl, by decide⟩
  intro minLen visited url fetched
  rcases hpi : processItem visited url fetched with ⟨txt, meta⟩
  rw [scrapStep_fst]
  by_cases hc : txt ≠ "" ∧ (pyLen txt : Int) > minLen
  · rw [if_pos hc]
    simp only [Option.elim_some]
    have hchars : meta.characters = some (pyLen txt) := by
      unfold processItem at hpi
      by_cases hvis : url ∈ visited
      · rw [if_pos hvis] at hpi
        cases hpi
        exact absurd rfl hc.1
      · rw [if_neg hvis] at hpi
        cases hfe : fetched with
        | none => rw [hfe] at hpi; cases hpi; exact absurd rfl hc.1
        | some r =>
          rw [hfe] at hpi
          dsimp only at hpi
          cases hun : pyUnpack2 r with
          | none => rw [hun] at hpi; cases hpi; exact absurd rfl hc.1
          | some pr =>
            rw [hun] at hpi
            rcases pr with ⟨rt, rtitle⟩
            dsimp only at hpi
            by_cases hrt : rt ≠ ""
            · rw [if_pos hrt] at hpi
              cases hpi
              rfl
            · rw [if_neg hrt] at hpi
              cases hpi
              exact absurd rfl hc.1
    constructor
    · by_cases ht : meta.topicTitle = ""
      · rw [if_pos ht]
        exact hchars
      · rw [if_neg ht]
        exact hchars
    · trivial
  · rw [if_neg hc]
    exact trivial

/-- C5 amended.  After robots.txt parsing: a request-rate `(n, seconds)`
sets the delay to `round(seconds / n, 2)` — rounded to two decimals, not
`seconds / n` exactly — and the workers to `2`; a crawl-delay overrides the
delay and clamps the workers only when it is non-zero (Python truthiness);
otherwise the configured values stay. -/
theorem robots_delay_amended (r : RobotsInfo) (timeSleep : ℚ) (processes : Nat) :
    (∀ req sec : Nat, r.requestRate = some (req, sec) →
      (r.crawlDelay = none ∨ r.crawlDelay = some 0) →
      checkRobotsSettings r timeSleep processes = (pyRound2 ((sec : ℚ) / (req : ℚ)), 2))
    ∧ (∀ d : Nat, r.crawlDelay = some d → d ≠ 0 →
      checkRobotsSettings r timeSleep processes = ((d : ℚ), 2))
    ∧ (r.requestRate = none → (r.crawlDelay = none ∨ r.crawlDelay = some 0) →
      checkRobotsSettings r timeSleep processes = (timeSleep, processes)) := by
  refine ⟨?_, ?_, ?_⟩
  · intro req sec hrr hcd
    unfold checkRobotsSettings
    rw [hrr]
    rcases hcd with hcd | hcd <;> simp [hcd]
  · intro d hcd hd
    unfold checkRobotsSettings
    rw [hcd]
    simp [hd]
  · intro hrr hcd
    unfold checkRobotsSettings
    rw [hrr]
    rcases hcd with hcd | hcd <;> simp [hcd]

/-- C5 amended, witness: a non-zero crawl-delay of 5 seconds takes effect
and clamps the workers. -/
theorem robots_delay_amended_witness :
    (5 : Nat) ≠ 0
    ∧ checkRobotsSettings ⟨none, some 5⟩ (1/2) 8 = ((5 : ℚ), 2) := by
  refine ⟨by decide, ?_⟩
  exact (robots_delay_amended ⟨none, some 5⟩ (1/2) 8).2.1 5 rfl (by decide)

/-- C5 counterexample.  For request-rate `(n, seconds) = (3, 1)` the claim
says the effective delay becomes `1/3`; the code stores
`round(1/3, 2) = 0.33`, which differs. -/
theorem robots_delay_round_cex :
    checkRobotsSettings ⟨some (3, 1), none⟩ (1/2) 8 = ((33/100 : ℚ), 2)
    ∧ ((33/100 : ℚ), 2) ≠ (((1 : ℚ)/(3 : ℚ)), 2) := by
  constructor
  · show (pyRound2 ((1 : ℚ) / (3 : ℚ)), 2) = ((33/100 : ℚ), 2)
    norm_num [pyRound2, roundHalfEven]
  · intro h
    rw [Prod.mk.injEq] at h
    exact absurd h.1 (by norm_num)

theorem selectorLoop_ok_some (urlNow : String) (soup : Soup) (engine : String)
    (pagination : List String) :
    ∀ (l : List String) (s : String),
      selectorLoop urlNow soup engine pagination l = Except.ok (some s) →
      s ≠ urlNow ∧ s ≠ "" := by
  intro l
  induction l with
  | nil =>
    intro s h
    simp [selectorLoop] at h
  | cons pc rest ih =>
    intro s h
    unfold selectorLoop at h
    cases hc : selectorCandidate soup engine pagination pc with
    | none =>
      rw [hc] at h
      exact ih s h
    | some elem =>
      rw [hc] at h
      dsimp only at h
      cases hh : candidateHref elem with
      | error e =>
        rw [hh] at h
        simp at h
      | ok np =>
        rw [hh] at h
        dsimp only at h
        by_cases h1 : np = urlNow
        · rw [if_pos h1] at h
          exact ih s h
        · rw [if_neg h1] at h
          by_cases h2 : np ≠ ""
          · rw [if_pos h2] at h
            simp only [Except.ok.injEq, Option.some.injEq] at h
            rw [← h]
            exact ⟨h1, h2⟩
          · rw [if_neg h2] at h
            exact ih s h

theorem dictUpdate_mem_pair {α : Type} (l : List (String × α)) (k : String) (v : α) :
    ∀ p ∈ dictUpdate l k v, p = (k, v) ∨ p ∈ l := by
  induction l with
  | nil =>
    intro p hp
    simp [dictUpdate] at hp
    left
    simp [hp]
  | cons q0 rest ih =>
    intro p hp
    rcases q0 with ⟨k0, v0⟩
    by_cases hk : k0 = k
    · simp only [dictUpdate, if_pos hk] at hp
      rcases List.mem_cons.mp hp with h | h
      · left; rw [h, hk]
      · right; exact List.mem_cons_of_mem _ h
    · simp only [dictUpdate, if_neg hk] at hp
      rcases List.mem_cons.mp hp with h | h
      · right; rw [h]; exact List.mem_cons_self _ _
      · rcases ih p h with h1 | h1
        · left; exact h1
        · right; exact List.mem_cons_of_mem _ h1

theorem pageNoStep_inv (fC tC : Int) (acc : List (String × Int)) (raw : String)
    (h : ∀ p ∈ acc, linkParse p.1 = some (fC, tC, p.2) ∧ p.2 ≠ 0) :
    ∀ p ∈ pageNoStep fC tC acc raw, linkParse p.1 = some (fC, tC, p.2) ∧ p.2 ≠ 0 := by
  intro p hp
  unfold pageNoStep at hp
  by_cases hcnd : raw ≠ "" ∧ occursIn "?" raw = true ∧ occursIn "start=" raw = true
  · rw [if_pos hcnd] at hp
    dsimp only at hp
    cases hlp : linkParse (pyReplace raw "&amp;" "&") with
    | none =>
      rw [hlp] at hp
      exact h p hp
    | some trip =>
      rw [hlp] at hp
      rcases trip with ⟨f, t, s⟩
      dsimp only at hp
      by_cases hok : s ≠ 0 ∧ f = fC ∧ t = tC
      · rw [if_pos hok] at hp
        rcases dictUpdate_mem_pair _ _ _ p hp with h1 | h1
        · rw [h1]
          refine ⟨?_, hok.1⟩
          rw [hlp, hok.2.1, hok.2.2]
        · exact h p h1
      · rw [if_neg hok] at hp
        exact h p hp
  · rw [if_neg hcnd] at hp
    exact h p hp

theorem buildPageNo_mem (fC tC : Int) (anchors : List String) :
    ∀ p ∈ buildPageNo fC tC anchors, linkParse p.1 = some (fC, tC, p.2) ∧ p.2 ≠ 0 := by
  have haux : ∀ (l : List String) (acc : List (String × Int)),
      (∀ p ∈ acc, linkParse p.1 = some (fC, tC, p.2) ∧ p.2 ≠ 0) →
      ∀ p ∈ l.foldl (pageNoStep fC tC) acc, linkParse p.1 = some (fC, tC, p.2) ∧ p.2 ≠ 0 := by
    intro l
    induction l with
    | nil => intro acc h p hp; exact h p hp
    | cons a rest ih =>
      intro acc h p hp
      exact ih _ (pageNoStep_inv fC tC acc a h) p hp
  intro p hp
  exact haux anchors [] (by intro q hq; cases hq) p hp

theorem find?_sorted_min (st : Int) :
    ∀ (l : List (String × Int)), List.Sorted startLe l →
      ∀ p, l.find? (fun q => decide (st < q.2)) = some p →
      ∀ q ∈ l, st < q.2 → p.2 ≤ q.2 := by
  intro l
  induction l with
  | nil =>
    intro _ p h
    simp at h
  | cons a rest ih =>
    intro hs p h q hq hql
    by_cases ha : st < a.2
    · have hd : decide (st < a.2) = true := decide_eq_true ha
      unfold List.find? at h
      rw [hd] at h
      dsimp only at h
      injection h with h4
      rw [← h4]
      rcases List.mem_cons.mp hq with h2 | h2
      · rw [h2]
      · exact (List.sorted_cons.mp hs).1 q h2
    · have hd : decide (st < a.2) = false := decide_eq_false ha
      unfold List.find? at h
      rw [hd] at h
      dsimp only at h
      rcases List.mem_cons.mp hq with h3 | h3
      · rw [h3] at hql
        exact absurd hql ha
      · exact ih (List.sorted_cons.mp hs).2 p h q h3 hql

/-- A page with no selector matches and no anchors. -/
def soupEmpty : Soup :=
  ⟨fun _ => [], fun _ _ => [], fun _ _ _ => [], fun _ _ _ => [], fun _ _ _ => none, []⟩

/-- C4 amended.  The pagination resolver never returns the current URL for a
non-phpBB engine; for phpBB it never does provided the current URL is
unchanged by replacing `&amp;` with `&` (without that proviso the fallback
can return it).  The per-topic page-fetch loop of the scraper always
terminates, but trivially: its resolver invocation omits the required
`engine_type` argument, always raises, and the handler ends the loop after
the first page, whatever the forum looks like. -/
theorem nextPage_not_current_amended (url : String) (soup : Soup)
    (pagination : List String) (engine : String)
    (h : engine ≠ "phpbb" ∨ pyReplace url "&amp;" "&" = url) :
    getNextPageLink url soup pagination engine ≠ Except.ok (some url)
    ∧ ∀ (web : String → Option Response) (cc : List String) (ds : String)
        (fuel : Nat) (u0 : String) (s0 : Soup) (text : String),
        topicPageLoop (fun _ _ => Except.error ()) web cc ds (fuel + 1) u0 s0 text
          = some text := by
  constructor
  · intro hbad
    unfold getNextPageLink at hbad
    cases hsel : selectorLoop url soup engine pagination pagination with
    | error e =>
      rw [hsel] at hbad
      simp at hbad
    | ok o =>
      cases o with
      | some s =>
        rw [hsel] at hbad
        simp only [Except.ok.injEq, Option.some.injEq] at hbad
        exact absurd hbad (selectorLoop_ok_some url soup engine pagination pagination s hsel).1
      | none =>
        rw [hsel] at hbad
        by_cases he : engine = "phpbb"
        · rw [if_pos he] at hbad
          have hrep : pyReplace url "&amp;" "&" = url := by
            rcases h with h | h
            · exact absurd he h
            · exact h
          have hfb : phpbbFallback url soup.anchors = some url := by
            simp only [Except.ok.injEq] at hbad
            exact hbad
          unfold phpbbFallback at hfb
          cases hcur : parseCur url with
          | none =>
            rw [hcur] at hfb
            simp at hfb
          | some trip =>
            rcases trip with ⟨f, t, st⟩
            rw [hcur] at hfb
            dsimp only at hfb
            rcases Option.map_eq_some'.mp hfb with ⟨p, hfind, hp1⟩
            have hperm := List.perm_insertionSort startLe (buildPageNo f t soup.anchors)
            have hpmem : p ∈ buildPageNo f t soup.anchors :=
              hperm.mem_iff.mp (List.mem_of_find?_eq_some hfind)
            have hlt : st < p.2 := by
              have hh := List.find?_some hfind
              simpa using hh
            have hinv := buildPageNo_mem f t soup.anchors p hpmem
            rw [hp1] at hinv
            have hl := hinv.1
            unfold parseCur at hcur
            rw [hrep] at hcur
            unfold linkParse at hl
            cases hq : pySplit url "?" with
            | nil =>
              rw [hq] at hcur
              simp at hcur
            | cons a as =>
              cases as with
              | nil =>
                rw [hq] at hcur
                simp at hcur
              | cons q qs =>
                rw [hq] at hcur hl
                dsimp only at hcur hl
                by_cases hqe : q ≠ ""
                · rw [if_pos hqe] at hl
                  rw [hcur] at hl
                  simp only [Option.some.injEq, Prod.mk.injEq] at hl
                  have : st = p.2 := hl.2.2
                  rw [this] at hlt
                  exact absurd hlt (lt_irrefl _)
                · rw [if_neg hqe] at hl
                  simp at hl
        · rw [if_neg he] at hbad
          simp at hbad
  · intro web cc ds fuel u0 s0 text
    rfl

/-- C4 amended, witness: a non-phpBB engine never yields the current URL. -/
theorem nextPage_not_current_amended_witness :
    (("invision" : String) ≠ "phpbb" ∨ pyReplace "u" "&amp;" "&" = "u")
    ∧ getNextPageLink "u" soupEmpty [] "invision" ≠ Except.ok (some "u") := by
  have h : ("invision" : String) ≠ "phpbb" ∨ pyReplace "u" "&amp;" "&" = "u" :=
    Or.inl (by decide)
  exact ⟨h, (nextPage_not_current_amended "u" soupEmpty [] "invision" h).1⟩

/-- C6 amended.  On a phpBB page with no selector match, the fallback
considers only anchors containing both `?` and `start=` whose parsed `f`
and `t` equal the current ones and whose parsed `start` is non-zero; it
returns no next page exactly when no such anchor has `start` above the
current one, and otherwise returns an anchor of the `page_no` dict with
minimal `start` strictly greater than the current `start`.  Anchors whose
`start` parses to `0` are never candidates, unlike the claim's reading. -/
theorem phpbbFallback_min_amended (url : String) (anchors : List String) (f t st : Int)
    (hcur : parseCur url = some (f, t, st)) :
    (phpbbFallback url anchors = none ↔ ∀ p ∈ buildPageNo f t anchors, ¬ st < p.2)
    ∧ (∀ link, phpbbFallback url anchors = some link →
        ∃ s : Int, (link, s) ∈ buildPageNo f t anchors ∧ linkParse link = some (f, t, s)
          ∧ s ≠ 0 ∧ st < s ∧ ∀ p ∈ buildPageNo f t anchors, st < p.2 → s ≤ p.2) := by
  have hsorted : List.Sorted startLe ((buildPageNo f t anchors).insertionSort startLe) :=
    List.sorted_insertionSort startLe _
  have hperm := List.perm_insertionSort startLe (buildPageNo f t anchors)
  constructor
  · unfold phpbbFallback
    rw [hcur]
    dsimp only
    constructor
    · intro h
      have hfind : ((buildPageNo f t anchors).insertionSort startLe).find?
          (fun p => decide (st < p.2)) = none := by
        cases hf : ((buildPageNo f t anchors).insertionSort startLe).find?
            (fun p => decide (st < p.2)) with
        | none => rfl
        | some p =>
          rw [hf] at h
          simp at h
      rw [List.find?_eq_none] at hfind
      intro p hp hlt
      exact hfind p (hperm.mem_iff.mpr hp) (decide_eq_true hlt)
    · intro hall
      cases hf : ((buildPageNo f t anchors).insertionSort startLe).find?
          (fun p => decide (st < p.2)) with
      | none => rfl
      | some p =>
        have hpmem : p ∈ buildPageNo f t anchors :=
          hperm.mem_iff.mp (List.mem_of_find?_eq_some hf)
        have hlt : st < p.2 := by
          have hh := List.find?_some hf
          simpa using hh
        exact absurd hlt (hall p hpmem)
  · intro link hl
    unfold phpbbFallback at hl
    rw [hcur] at hl
    dsimp only at hl
    rcases Option.map_eq_some'.mp hl with ⟨p, hfind, hp1⟩
    have hpmem : p ∈ buildPageNo f t anchors :=
      hperm.mem_iff.mp (List.mem_of_find?_eq_some hfind)
    have hlt : st < p.2 := by
      have hh := List.find?_some hfind
      simpa using hh
    have hinv := buildPageNo_mem f t anchors p hpmem
    refine ⟨p.2, ?_, ?_, hinv.2, hlt, ?_⟩
    · rw [← hp1]
      rw [Prod.mk.eta]
      exact hpmem
    · rw [← hp1]
      exact hinv.1
    · intro q hq hql
      exact find?_sorted_min st _ hsorted p hfind q (hperm.mem_iff.mpr hq) hql

/-- C6 amended, witness: the fallback does return a page for a concrete
topic with a larger `start` anchor. -/
theorem phpbbFallback_min_amended_witness :
    parseCur "p?f=1&t=2&start=-5" = some (1, 2, -5)
    ∧ phpbbFallback "p?f=1&t=2&start=-5" ["p?f=1&t=2&start=0", "p?f=1&t=2&start=10"]
        ≠ none := by
  refine ⟨rfl, ?_⟩
  intro h
  have hiff := (phpbbFallback_min_amended "p?f=1&t=2&start=-5"
    ["p?f=1&t=2&start=0", "p?f=1&t=2&start=10"] 1 2 (-5) rfl).1
  have hall := hiff.mp h
  exact (by decide : ¬ ∀ p ∈ buildPageNo 1 2 ["p?f=1&t=2&start=0", "p?f=1&t=2&start=10"],
    ¬ (-5 : Int) < p.2) hall

/-- C6 counterexample.  Current URL with `start = -5`; the page has anchors
with `start = 0` and `start = 10` sharing `f` and `t`.  The claim's reading
(smallest `start` strictly greater than the current one) picks the
`start = 0` anchor, but the code excludes zero `start` values and returns
the `start = 10` anchor. -/
theorem phpbbFallback_spec_cex :
    phpbbFallback "p?f=1&t=2&start=-5" ["p?f=1&t=2&start=0", "p?f=1&t=2&start=10"]
      = some "p?f=1&t=2&start=10"
    ∧ phpbbFallbackSpec "p?f=1&t=2&start=-5" ["p?f=1&t=2&start=0", "p?f=1&t=2&start=10"]
      = some "p?f=1&t=2&start=0"
    ∧ ("p?f=1&t=2&start=10" : String) ≠ "p?f=1&t=2&start=0" := by
  refine ⟨rfl, rfl, by decide⟩

/-- Current URL of the C4 counterexample: its query already contains a
literal `&amp;`, so the fallback's two parses of it disagree. -/
def urlCex : String := "https://f.pl/viewtopic.php?f=1&t=2&start=30&amp;start=5"

/-- Anchor href whose `&amp;`-normalisation equals `urlCex`. -/
def rawAnchorCex : String := "https://f.pl/viewtopic.php?f=1&t=2&start=30&amp;amp;start=5"

/-- A page where no pagination selector matches and the only anchor is
`rawAnchorCex`. -/
def soupCex : Soup :=
  ⟨fun _ => [], fun _ _ => [], fun _ _ _ => [], fun _ _ _ => [],
   fun _ _ _ => none, [rawAnchorCex]⟩

/-- The web of the C4 counterexample: `urlCex` always serves `soupCex`. -/
def webCex : String → Option Response :=
  fun u => if u = urlCex then some ⟨true, 1000, soupCex⟩ else none

/-- C4 counterexample.  On this phpBB page the resolver returns exactly the
current URL (the fallback stores the normalised anchor — equal to the
current URL — under `start = 30`, while the current URL re-parses to
`start = 5`), so "never returns a value equal to the current URL" is false;
moreover a loop that did repeatedly apply this resolver (with the
`engine_type` argument supplied) would revisit the same page for ever on
this finite forum. -/
theorem nextPage_returns_current_cex :
    getNextPageLink urlCex soupCex phpbbPagination "phpbb" = Except.ok (some urlCex)
    ∧ ¬ ∃ fuel : Nat, (topicPageLoop
        (fun u s => getNextPageLink u s phpbbPagination "phpbb") webCex
        ["div >> class :: content"] "https://f.pl" fuel urlCex soupCex "").isSome = true := by
  have h1 : getNextPageLink urlCex soupCex phpbbPagination "phpbb"
      = Except.ok (some urlCex) := by rfl
  refine ⟨h1, ?_⟩
  rintro ⟨fuel, hf⟩
  have hnone : ∀ n : Nat, topicPageLoop
      (fun u s => getNextPageLink u s phpbbPagination "phpbb") webCex
      ["div >> class :: content"] "https://f.pl" n urlCex soupCex "" = none := by
    intro n
    induction n with
    | zero => rfl
    | succ m ih =>
      have hstep : topicPageLoop
          (fun u s => getNextPageLink u s phpbbPagination "phpbb") webCex
          ["div >> class :: content"] "https://f.pl" (m + 1) urlCex soupCex ""
          = topicPageLoop
            (fun u s => getNextPageLink u s phpbbPagination "phpbb") webCex
            ["div >> class :: content"] "https://f.pl" m urlCex soupCex "" := by rfl
      rw [hstep, ih]
  rw [hnone fuel] at hf
  simp at hf
